import Mathlib

set_option maxHeartbeats 1000000
set_option maxRecDepth 4000

namespace Kirapo

/-! ## Data model

Shallow embedding of the kirapo-descrambler core (src/main.rs): the manifest
parser `parse_json` and the tile compositor `descramble`.  Machine `u32`
values are embedded as `Nat`; where the Rust code can overflow or abort, the
embedding makes that explicit (`PResult.crash`, `Option` results).  Pixel
buffers are row-major lists of RGBA samples, matching `image::RgbaImage`. -/

/-- One RGBA pixel (four `u8` samples, carried as `Nat`). -/
structure Rgba where
  r : Nat
  g : Nat
  b : Nat
  a : Nat
deriving DecidableEq, Repr

/-- The zero pixel: fully transparent black, the value `ImageBuffer::new`
initializes every pixel to. -/
def rgbaZero : Rgba := ⟨0, 0, 0, 0⟩

/-- A decoded pixel buffer, row-major, as in `image::ImageBuffer`.  The
`data` list has length `width * height` for every buffer the library
produces; theorems carry that as a hypothesis where needed. -/
structure Img where
  width : Nat
  height : Nat
  data : List Rgba
deriving DecidableEq, Repr

/-- Read a pixel at `(x, y)`; row-major index `y * width + x` as in
`ImageBuffer::get_pixel`.  Out-of-range reads yield the zero pixel (the
real library panics there; no reachable code path in this development reads
out of range). -/
def Img.getPixel (m : Img) (x y : Nat) : Rgba :=
  m.data.getD (y * m.width + x) rgbaZero

/-- Write a pixel at `(x, y)`, row-major, as in `ImageBuffer::put_pixel`. -/
def Img.setPixel (m : Img) (x y : Nat) (c : Rgba) : Img :=
  { m with data := m.data.set (y * m.width + x) c }

/-- `ImageBuffer::new(w, h)`: a `w × h` buffer of zeroed (fully transparent)
pixels. -/
def Img.blank (w h : Nat) : Img :=
  ⟨w, h, List.replicate (w * h) rgbaZero⟩

/-- `type CoordsTuple = (u32, u32, u32, u32, u32, u32)` from src/main.rs:
`(src_x, src_y, w, h, dst_x, dst_y)`. -/
def CoordsTuple : Type := Nat × Nat × Nat × Nat × Nat × Nat

instance : DecidableEq CoordsTuple := by
  unfold CoordsTuple
  infer_instance

/-- `struct Views` from src/main.rs: output canvas size plus the ordered
placement list parsed from the manifest. -/
structure Views where
  width : Nat
  height : Nat
  coords : List CoordsTuple
deriving DecidableEq

/-- `2^32`: one past `u32::MAX`. -/
def U32L : Nat := 4294967296

/-! ## Manifest parser (`parse_json`)

`parse_json` consumes the serde-decoded JSON value.  JSON values are embedded
as the inductive `Json`; `Json.num n` embeds a JSON number that
`serde_json::Value::as_u64` accepts when `n < 2^64`.  The parser can return a
value, return a boxed error (every `ok_or`/`?` site in the source), or abort
the process (the unchecked `Vec` indexing `src_pos[1]` etc.); the three
outcomes are `PResult.ok`, `PResult.err`, `PResult.crash`. -/

/-- Embedded `serde_json::Value`. -/
inductive Json where
  | null : Json
  | bool (b : Bool) : Json
  | num (n : Nat) : Json
  | str (s : String) : Json
  | arr (elems : List Json) : Json
  | obj (fields : List (String × Json)) : Json

/-- Outcome of a fallible Rust computation: `ok` for `Ok`, `err` for the
boxed error returned through `?`/`ok_or`, `crash` for a panic (process
abort). -/
inductive PResult (α : Type) where
  | ok : α → PResult α
  | err : String → PResult α
  | crash : PResult α
deriving DecidableEq

/-- Sequencing of fallible steps: `?` propagation; a crash aborts
everything after it. -/
def PResult.bind {α β : Type} (x : PResult α) (f : α → PResult β) : PResult β :=
  match x with
  | .ok a => f a
  | .err m => .err m
  | .crash => .crash

/-- `Option::ok_or(msg)?`. -/
def ofOption {α : Type} (o : Option α) (msg : String) : PResult α :=
  match o with
  | some a => .ok a
  | none => .err msg

/-- Key lookup in an embedded JSON object (serde maps hold one value per
key). -/
def jlookup : List (String × Json) → String → Option Json
  | [], _ => none
  | (k, v) :: rest, key => if k = key then some v else jlookup rest key

/-- `value["key"]` on a `serde_json::Value`: the value at the key, or
`Null` when the value is not an object or lacks the key. -/
def Json.index (j : Json) (key : String) : Json :=
  match j with
  | .obj fields =>
    match jlookup fields key with
    | some v => v
    | none => .null
  | _ => .null

/-- `map["key"]` on the `serde_json` object map itself, as in
`views_json["width"]`: the value or `Null`. -/
def fieldIndex (fields : List (String × Json)) (key : String) : Json :=
  match jlookup fields key with
  | some v => v
  | none => .null

/-- `Value::get(0)`: first element of an array value, `None` otherwise. -/
def Json.get0 : Json → Option Json
  | .arr (x :: _) => some x
  | _ => none

/-- `Value::as_object`. -/
def Json.asObject : Json → Option (List (String × Json))
  | .obj fields => some fields
  | _ => none

/-- `Value::as_u64`: the numeric value when it is a non-negative integer
fitting `u64`. -/
def Json.asU64 : Json → Option Nat
  | .num n => if n < 18446744073709551616 then some n else none
  | _ => none

/-- `Value::as_array`. -/
def Json.asArray : Json → Option (List Json)
  | .arr elems => some elems
  | _ => none

/-- `Value::as_str`. -/
def Json.asStr : Json → Option String
  | .str s => some s
  | _ => none

/-- `str::strip_prefix("i:")`: the first two characters must be `i` and
`:`. -/
def stripI : List Char → Option (List Char)
  | a :: b :: rest => if a = 'i' ∧ b = ':' then some rest else none
  | _ => none

/-- `str::split_once(c)`: split at the first occurrence of `c`. -/
def splitOnce (c : Char) : List Char → Option (List Char × List Char)
  | [] => none
  | a :: rest =>
    if a = c then some ([], rest)
    else
      match splitOnce c rest with
      | some (l, r) => some (a :: l, r)
      | none => none

/-- `str::split(c).collect::<Vec<_>>()`: all fields, keeping empty ones;
yields one (possibly empty) field even for the empty string, as Rust
does. -/
def splitAll (c : Char) : List Char → List (List Char)
  | [] => [[]]
  | a :: rest =>
    if a = c then [] :: splitAll c rest
    else
      match splitAll c rest with
      | [] => [[a]]
      | l :: ls => (a :: l) :: ls

/-- Digit loop of `u32::from_str` (`from_str_radix`, radix 10): left to
right, reject a non-digit, reject overflow past `u32::MAX` at the step
where it happens; error strings are the `ParseIntError` display texts. -/
def parseDigits : List Char → Nat → Except String Nat
  | [], acc => .ok acc
  | c :: cs, acc =>
    if c.isDigit then
      if U32L ≤ acc * 10 + (c.toNat - 48) then
        .error "number too large to fit in target type"
      else parseDigits cs (acc * 10 + (c.toNat - 48))
    else .error "invalid digit found in string"

/-- `str::parse::<u32>()`: optional leading `+` sign (a bare sign is an
invalid-digit error), then the decimal digit loop. -/
def parseU32 (l : List Char) : Except String Nat :=
  match l with
  | [] => .error "cannot parse integer from empty string"
  | ch :: rest =>
    if ch = '+' then
      match rest with
      | [] => .error "invalid digit found in string"
      | _ => parseDigits rest 0
    else parseDigits (ch :: rest) 0

/-- The `?` conversion of a `parse::<u32>()` result into the loop result. -/
def ofParseU32 : Except String Nat → PResult Nat
  | .ok n => .ok n
  | .error m => .err m

/-- The `Vec` indexing step: aborts the process when `i` is out of bounds
(`crash`), otherwise parses. -/
def idxParseAux : Option (List Char) → PResult Nat
  | none => .crash
  | some s => ofParseU32 (parseU32 s)

/-- `parts[i].parse::<u32>()?`: index (indexing out of bounds aborts), then
parse, then `?`. -/
def idxParse (parts : List (List Char)) (i : Nat) : PResult Nat :=
  idxParseAux (parts.get? i)

/-- The six `parse::<u32>()?` lines of the loop body, in source order:
`src_pos[0]`, `src_pos[1]`, `size[0]`, `size[1]`, `dst_pos[0]`,
`dst_pos[1]`. -/
def parseEntryNums (srcL sizeL dstL : List (List Char)) : PResult CoordsTuple :=
  (idxParse srcL 0).bind fun src_x =>
  (idxParse srcL 1).bind fun src_y =>
  (idxParse sizeL 0).bind fun w =>
  (idxParse sizeL 1).bind fun h =>
  (idxParse dstL 0).bind fun dst_x =>
  (idxParse dstL 1).bind fun dst_y =>
  .ok (src_x, src_y, w, h, dst_x, dst_y)

/-- Continuation after `split_once` on `+`: the `ok_or` error, or the
three comma `split` calls followed by the numeric parses. -/
def parseEntryAfterPlus : Option (List Char × List Char) → List Char → PResult CoordsTuple
  | none, _ => .err "Failed to split the src and size parts"
  | some (src_pos, size), dst_part =>
    parseEntryNums (splitAll ',' src_pos) (splitAll ',' size) (splitAll ',' dst_part)

/-- Continuation after `split_once` on `>`: the `ok_or` error, or the
`split_once` on `+`. -/
def parseEntryAfterGt : Option (List Char × List Char) → PResult CoordsTuple
  | none => .err "Failed to split the src and dst parts"
  | some (src_part, dst_part) => parseEntryAfterPlus (splitOnce '+' src_part) dst_part

/-- The loop body after the `i:` prefix strip. -/
def parseEntryBody (s : List Char) : PResult CoordsTuple :=
  parseEntryAfterGt (splitOnce '>' s)

/-- Continuation after `strip_prefix("i:")`: the `ok_or` error, or the
rest of the loop body. -/
def parseEntryAfterStrip : Option (List Char) → PResult CoordsTuple
  | none => .err "Failed to strip the \x27i:\x27 prefix"
  | some s => parseEntryBody s

/-- The loop body applied to the character data of a coords entry. -/
def parseEntryStr (l : List Char) : PResult CoordsTuple :=
  parseEntryAfterStrip (stripI l)

/-- The body of the `for coords_str in coords_value` loop in `parse_json`:
one coords entry string to one `CoordsTuple`. -/
def parseCoordsEntry (j : Json) : PResult CoordsTuple :=
  match j.asStr with
  | none => .err "Failed to convert a coords entry into a String"
  | some s0 => parseEntryStr s0.data

/-- The whole coords loop: entries in manifest order, first failure wins. -/
def parseCoords : List Json → PResult (List CoordsTuple)
  | [] => .ok []
  | e :: rest =>
    (parseCoordsEntry e).bind fun c =>
    (parseCoords rest).bind fun cs =>
    .ok (c :: cs)

/-- `parse_json` from src/main.rs, applied to the serde-decoded value of the
manifest text.  `width`/`height` go through `as_u64` then `as u32`
(truncation modulo `2^32`). -/
def parse_json (v : Json) : PResult Views :=
  (ofOption ((v.index "views").get0) "No views field in the json").bind fun v0 =>
  (ofOption v0.asObject "No views field in the json").bind fun views_json =>
  (ofOption (fieldIndex views_json "width").asU64 "Failed to parse width from json").bind fun w64 =>
  (ofOption (fieldIndex views_json "height").asU64 "Failed to parse height from json").bind fun h64 =>
  (ofOption (fieldIndex views_json "coords").asArray "Failed to parse coords from json").bind fun coords_value =>
  (parseCoords coords_value).bind fun coords =>
  .ok ⟨w64 % U32L, h64 % U32L, coords⟩

/-! ## Tile compositor (`descramble`)

`descramble` calls two `image`-crate functions whose semantics the next
definitions embed: `DynamicImage::crop_imm` (which clamps the requested
rectangle to the image, `imageops::crop_dimms`) and
`GenericImage::copy_from` (which checks that the destination rectangle fits
and otherwise returns `Err` without writing).  The source ignores the
`Result` of `copy_from`, so a failed bounds check silently skips that whole
placement.  The `u32` additions `other.width() + x` / `other.height() + y`
inside `copy_from` abort on overflow (overflow-checked arithmetic; with
wrapping arithmetic the subsequent `put_pixel` aborts out of bounds at the
inputs used in this development), embedded as `none`. -/

/-- `imageops::crop_dimms`: clamp the corner to the image, then the extent
to what remains. -/
def crop_dimms (W H x y w h : Nat) : Nat × Nat × Nat × Nat :=
  let x' := min x W
  let y' := min y H
  (x', y', min w (W - x'), min h (H - y'))

/-- `DynamicImage::crop_imm(x, y, w, h)` followed by `to_image()`: the
clamped rectangle materialized row-major. -/
def crop_imm (img : Img) (x y w h : Nat) : Img :=
  match crop_dimms img.width img.height x y w h with
  | (x', y', w', h') =>
    ⟨w', h',
      (List.range h').flatMap fun k =>
        (List.range w').map fun i => img.getPixel (x' + i) (y' + k)⟩

/-- Inner pixel loop of `copy_from`: one row `k` of the source written at
vertical offset `y`, horizontal offset `x`; `m` iterations. -/
def rowFold (src : Img) (x y k m : Nat) (acc : Img) : Img :=
  (List.range m).foldl (fun a i => a.setPixel (i + x) (k + y) (src.getPixel i k)) acc

/-- The double pixel loop of `copy_from`: every row of `src` written into
`dst` at offset `(x, y)`. -/
def writeTile (dst src : Img) (x y : Nat) : Img :=
  (List.range src.height).foldl (fun acc k => rowFold src x y k src.width acc) dst

/-- `GenericImage::copy_from(other, x, y)`: bounds check first — on failure
`Err(())` and no write; `none` embeds the abort on `u32` overflow of the
checked additions. -/
def copy_from (dst other : Img) (x y : Nat) : Option (Except Unit Img) :=
  if U32L ≤ other.width + x then none
  else if dst.width < other.width + x then some (Except.error ())
  else if U32L ≤ other.height + y then none
  else if dst.height < other.height + y then some (Except.error ())
  else some (Except.ok (writeTile dst other x y))

/-- One iteration of the `for ... in views.coords` loop in `descramble`:
crop the tile, try to copy it; the `Result` of `copy_from` is discarded, so
`Err` leaves the buffer untouched. -/
def descrambleStep (img : Img) (orig : Img) (c : CoordsTuple) : Option Img :=
  match c with
  | (src_x, src_y, w, h, dst_x, dst_y) =>
    let tile := crop_imm img src_x src_y w h
    match copy_from orig tile dst_x dst_y with
    | none => none
    | some (Except.error _) => some orig
    | some (Except.ok o) => some o

/-- The placement loop of `descramble`, in manifest order. -/
def descrambleLoop (img : Img) : Img → List CoordsTuple → Option Img
  | orig, [] => some orig
  | orig, c :: rest =>
    match descrambleStep img orig c with
    | none => none
    | some o => descrambleLoop img o rest

/-- `descramble` from src/main.rs: zeroed `width × height` canvas, then
every placement applied sequentially. -/
def descramble (img : Img) (v : Views) : Option Img :=
  descrambleLoop img (Img.blank v.width v.height) v.coords

/-! ## Concrete inputs used by counterexamples and witnesses -/

/-- A 2×2 source image with four distinct pixels. -/
def imgA : Img :=
  ⟨2, 2, [⟨10, 0, 0, 255⟩, ⟨20, 0, 0, 255⟩, ⟨30, 0, 0, 255⟩, ⟨40, 0, 0, 255⟩]⟩

/-- A 2×2 canvas whose single placement writes the whole source one pixel
to the right: destination rectangle [1,3)×[0,2) leaves the canvas. -/
def viewsOobDest : Views := ⟨2, 2, [(0, 0, 2, 2, 1, 0)]⟩

/-- A 4×2 source image with eight distinct pixels. -/
def imgB : Img :=
  ⟨4, 2, [⟨0, 0, 0, 255⟩, ⟨1, 0, 0, 255⟩, ⟨2, 0, 0, 255⟩, ⟨3, 0, 0, 255⟩,
          ⟨4, 0, 0, 255⟩, ⟨5, 0, 0, 255⟩, ⟨6, 0, 0, 255⟩, ⟨7, 0, 0, 255⟩]⟩

/-- A 4×2 canvas whose single placement asks for the source rectangle
[2,6)×[0,2) of the 4×2 source: it sticks out by two columns. -/
def viewsOobSrc : Views := ⟨4, 2, [(2, 0, 4, 2, 0, 0)]⟩

/-- What `descramble imgB viewsOobSrc` produces: the clamped 2×2 tile
(columns 2 and 3 of `imgB`) lands at the origin, the rest stays zeroed. -/
def imgBClamped : Img :=
  ⟨4, 2, [⟨2, 0, 0, 255⟩, ⟨3, 0, 0, 255⟩, rgbaZero, rgbaZero,
          ⟨6, 0, 0, 255⟩, ⟨7, 0, 0, 255⟩, rgbaZero, rgbaZero]⟩

/-- The serde-decoded value of the manifest text
`{"views":[{"width":4,"height":2,"coords":["i:0,0+2,2>0,0","i:2,0+2,2>2,0"]}]}`. -/
def manifestC4 : Json :=
  .obj [("views", .arr [.obj
    [("width", .num 4), ("height", .num 2),
     ("coords", .arr [.str "i:0,0+2,2>0,0", .str "i:2,0+2,2>2,0"])]])]

/-- The geometry descriptor that manifest decodes to. -/
def viewsC4 : Views := ⟨4, 2, [(0, 0, 2, 2, 0, 0), (2, 0, 2, 2, 2, 0)]⟩

/-- A manifest value with the given `width`/`height` numbers and coords
entries, used to quantify over numeric fields. -/
def mkManifest (wv hv : Nat) (coords : List Json) : Json :=
  .obj [("views", .arr [.obj
    [("width", .num wv), ("height", .num hv), ("coords", .arr coords)]])]

/-- A 2×1 source image with two distinct pixels. -/
def imgC : Img := ⟨2, 1, [⟨1, 1, 1, 255⟩, ⟨2, 2, 2, 255⟩]⟩

/-- A placement whose destination x is `u32::MAX`: the bounds check in
`copy_from` overflows `u32`. -/
def viewsOverflow : Views := ⟨4, 2, [(0, 0, 2, 1, 4294967295, 0)]⟩

/-- The same tile placed in bounds instead. -/
def viewsSmall : Views := ⟨4, 2, [(0, 0, 2, 1, 0, 0)]⟩

/-- A well-formed coords entry string built from six component strings. -/
def mkEntry (a b c d e f : List Char) : String :=
  ⟨'i' :: ':' :: (a ++ ',' :: (b ++ '+' :: (c ++ ',' :: (d ++ '>' :: (e ++ ',' :: f)))))⟩

/-- Component strings all of whose characters are decimal digits (and at
least one). -/
def allDigits (l : List Char) : Prop := l ≠ [] ∧ ∀ ch ∈ l, ch.isDigit

instance (l : List Char) : Decidable (allDigits l) := by
  unfold allDigits
  infer_instance

/-- Decimal value of a digit string accumulated onto `acc`, the ideal
(unchecked) counterpart of `parseDigits`. -/
def digitsValFrom (acc : Nat) (l : List Char) : Nat :=
  l.foldl (fun a ch => a * 10 + (ch.toNat - 48)) acc

/-- Decimal value of a digit string. -/
def digitsVal (l : List Char) : Nat := digitsValFrom 0 l

/-- True when a `PResult` is an `err`. -/
def PResult.isErr {α : Type} : PResult α → Bool
  | .err _ => true
  | _ => false

/-! ## List and arithmetic helper lemmas -/

theorem getD_set_self (l : List Rgba) (n : Nat) (c d : Rgba) (h : n < l.length) :
    (l.set n c).getD n d = c := by
  rw [List.getD_eq_getElem?_getD, List.getElem?_set_self h]
  rfl

theorem getD_set_ne (l : List Rgba) (n m : Nat) (c d : Rgba) (h : n ≠ m) :
    (l.set n c).getD m d = l.getD m d := by
  rw [List.getD_eq_getElem?_getD, List.getElem?_set_ne h, ← List.getD_eq_getElem?_getD]

theorem getD_replicate_zero (n i : Nat) :
    (List.replicate n rgbaZero).getD i rgbaZero = rgbaZero := by
  rw [List.getD_eq_getElem?_getD, List.getElem?_replicate]
  split <;> rfl

theorem list_ext_getD (l₁ l₂ : List Rgba) (hl : l₁.length = l₂.length)
    (h : ∀ n, n < l₁.length → l₁.getD n rgbaZero = l₂.getD n rgbaZero) : l₁ = l₂ := by
  apply List.ext_get hl
  intro n h₁ h₂
  have hn := h n h₁
  rw [List.getD_eq_getElem?_getD, List.getD_eq_getElem?_getD,
    List.getElem?_eq_getElem h₁, List.getElem?_eq_getElem h₂] at hn
  simpa using hn

theorem rowcol_inj {W a b c d : Nat} (hb : b < W) (hd : d < W)
    (h : a * W + b = c * W + d) : a = c ∧ b = d := by
  have hw : 0 < W := Nat.lt_of_le_of_lt (Nat.zero_le b) hb
  have ha : (a * W + b) / W = a := by
    rw [Nat.mul_comm, Nat.mul_add_div hw, Nat.div_eq_of_lt hb, Nat.add_zero]
  have hc : (c * W + d) / W = c := by
    rw [Nat.mul_comm, Nat.mul_add_div hw, Nat.div_eq_of_lt hd, Nat.add_zero]
  have hac : a = c := by rw [← ha, ← hc, h]
  refine ⟨hac, ?_⟩
  subst hac
  exact Nat.add_left_cancel h

theorem index_lt {a A b W : Nat} (ha : a < A) (hbW : b < W) : a * W + b < A * W :=
  calc a * W + b < a * W + W := by omega
    _ = (a + 1) * W := by ring
    _ ≤ A * W := Nat.mul_le_mul_right W (Nat.succ_le_of_lt ha)

theorem foldl_preserve {α : Type} (p : Img → Nat) (f : Img → α → Img)
    (hf : ∀ a b, p (f a b) = p a) :
    ∀ (l : List α) (acc : Img), p (l.foldl f acc) = p acc := by
  intro l
  induction l with
  | nil => intro acc; rfl
  | cons a t ih => intro acc; rw [List.foldl_cons, ih, hf]

theorem setPixel_length (m : Img) (x y : Nat) (c : Rgba) :
    (m.setPixel x y c).data.length = m.data.length :=
  List.length_set m.data _ c

/-! ## Compositor lemmas -/

theorem rowFold_width (src : Img) (x y k m : Nat) (acc : Img) :
    (rowFold src x y k m acc).width = acc.width := by
  unfold rowFold
  exact foldl_preserve Img.width (fun a i => a.setPixel (i + x) (k + y) (src.getPixel i k))
    (fun _ _ => rfl) _ acc

theorem rowFold_height (src : Img) (x y k m : Nat) (acc : Img) :
    (rowFold src x y k m acc).height = acc.height := by
  unfold rowFold
  exact foldl_preserve Img.height (fun a i => a.setPixel (i + x) (k + y) (src.getPixel i k))
    (fun _ _ => rfl) _ acc

theorem rowFold_length (src : Img) (x y k m : Nat) (acc : Img) :
    (rowFold src x y k m acc).data.length = acc.data.length := by
  unfold rowFold
  exact foldl_preserve (fun b => b.data.length) _ (fun a _ => setPixel_length a _ _ _) _ acc

theorem writeTile_width (dst src : Img) (x y : Nat) :
    (writeTile dst src x y).width = dst.width := by
  unfold writeTile
  exact foldl_preserve Img.width _ (fun a k => rowFold_width src x y k src.width a) _ dst

theorem writeTile_height (dst src : Img) (x y : Nat) :
    (writeTile dst src x y).height = dst.height := by
  unfold writeTile
  exact foldl_preserve Img.height _ (fun a k => rowFold_height src x y k src.width a) _ dst

theorem writeTile_length (dst src : Img) (x y : Nat) :
    (writeTile dst src x y).data.length = dst.data.length := by
  unfold writeTile
  exact foldl_preserve (fun b => b.data.length) _
    (fun a k => rowFold_length src x y k src.width a) _ dst

theorem getPixel_setPixel (B : Img) (u v xq yq : Nat) (c : Rgba)
    (hlen : B.data.length = B.width * B.height)
    (hu : u < B.width) (hv : v < B.height) (hxq : xq < B.width) :
    (B.setPixel u v c).getPixel xq yq =
      if xq = u ∧ yq = v then c else B.getPixel xq yq := by
  unfold Img.setPixel Img.getPixel
  simp only
  by_cases heq : yq * B.width + xq = v * B.width + u
  · obtain ⟨h1, h2⟩ := rowcol_inj hxq hu heq
    rw [if_pos ⟨h2, h1⟩]
    have hidx : v * B.width + u < B.data.length := by
      rw [hlen]
      calc v * B.width + u < B.height * B.width := index_lt hv hu
        _ = B.width * B.height := Nat.mul_comm _ _
    rw [heq]
    exact getD_set_self _ _ _ _ hidx
  · rw [if_neg fun hand => heq (by rw [hand.1, hand.2])]
    exact getD_set_ne _ _ _ _ _ fun hback => heq hback.symm

theorem rowFold_getPixel (src : Img) (x y k : Nat) :
    ∀ (m : Nat) (acc : Img), x + m ≤ acc.width → k + y < acc.height →
      acc.data.length = acc.width * acc.height →
      ∀ px py, px < acc.width →
        (rowFold src x y k m acc).getPixel px py =
          if py = k + y ∧ x ≤ px ∧ px < x + m then src.getPixel (px - x) k
          else acc.getPixel px py := by
  intro m
  induction m with
  | zero =>
    intro acc hxm hk hlen px py hpx
    rw [if_neg (by omega)]
    rfl
  | succ n ih =>
    intro acc hxm hk hlen px py hpx
    have hstep : rowFold src x y k (n + 1) acc
        = (rowFold src x y k n acc).setPixel (n + x) (k + y) (src.getPixel n k) := by
      unfold rowFold
      rw [List.range_succ, List.foldl_append]
      rfl
    have hw : (rowFold src x y k n acc).width = acc.width := rowFold_width src x y k n acc
    have hh : (rowFold src x y k n acc).height = acc.height := rowFold_height src x y k n acc
    have hl : (rowFold src x y k n acc).data.length = acc.data.length :=
      rowFold_length src x y k n acc
    have hlen2 : (rowFold src x y k n acc).data.length
        = (rowFold src x y k n acc).width * (rowFold src x y k n acc).height := by
      rw [hl, hw, hh, hlen]
    rw [hstep, getPixel_setPixel _ _ _ _ _ _ hlen2 (by omega) (by omega) (by omega),
      ih acc (by omega) hk hlen px py hpx]
    by_cases hA : px = n + x ∧ py = k + y
    · rw [if_pos hA, if_pos (by omega)]
      have hpxn : px - x = n := by omega
      rw [hpxn]
    · rw [if_neg hA]
      by_cases hB : py = k + y ∧ x ≤ px ∧ px < x + n
      · rw [if_pos hB, if_pos (by omega)]
      · rw [if_neg hB, if_neg (by omega)]

theorem rowsFold_getPixel (src : Img) (x y : Nat) :
    ∀ (n : Nat) (dst : Img), x + src.width ≤ dst.width → y + n ≤ dst.height →
      dst.data.length = dst.width * dst.height →
      ∀ px py, px < dst.width →
        ((List.range n).foldl (fun acc k => rowFold src x y k src.width acc) dst).getPixel px py =
          if x ≤ px ∧ px < x + src.width ∧ y ≤ py ∧ py < y + n
          then src.getPixel (px - x) (py - y)
          else dst.getPixel px py := by
  intro n
  induction n with
  | zero =>
    intro dst hx hy hlen px py hpx
    rw [if_neg (by omega)]
    rfl
  | succ n ih =>
    intro dst hx hy hlen px py hpx
    have hstep : (List.range (n + 1)).foldl (fun acc k => rowFold src x y k src.width acc) dst
        = rowFold src x y n src.width
            ((List.range n).foldl (fun acc k => rowFold src x y k src.width acc) dst) := by
      rw [List.range_succ, List.foldl_append]
      rfl
    have hw : ((List.range n).foldl (fun acc k => rowFold src x y k src.width acc) dst).width
        = dst.width :=
      foldl_preserve Img.width _ (fun a k => rowFold_width src x y k src.width a) _ dst
    have hh : ((List.range n).foldl (fun acc k => rowFold src x y k src.width acc) dst).height
        = dst.height :=
      foldl_preserve Img.height _ (fun a k => rowFold_height src x y k src.width a) _ dst
    have hl : ((List.range n).foldl (fun acc k => rowFold src x y k src.width acc) dst).data.length
        = dst.data.length :=
      foldl_preserve (fun b => b.data.length) _
        (fun a k => rowFold_length src x y k src.width a) _ dst
    have hlen2 : ((List.range n).foldl (fun acc k => rowFold src x y k src.width acc) dst).data.length
        = ((List.range n).foldl (fun acc k => rowFold src x y k src.width acc) dst).width
          * ((List.range n).foldl (fun acc k => rowFold src x y k src.width acc) dst).height := by
      rw [hl, hw, hh, hlen]
    rw [hstep,
      rowFold_getPixel src x y n src.width _ (by omega) (by omega) hlen2 px py (by omega),
      ih dst hx (by omega) hlen px py hpx]
    by_cases hA : py = n + y ∧ x ≤ px ∧ px < x + src.width
    · rw [if_pos hA, if_pos (by omega)]
      have hpyn : py - y = n := by omega
      rw [hpyn]
    · rw [if_neg hA]
      by_cases hB : x ≤ px ∧ px < x + src.width ∧ y ≤ py ∧ py < y + n
      · rw [if_pos hB, if_pos (by omega)]
      · rw [if_neg hB, if_neg (by omega)]

theorem writeTile_getPixel (dst src : Img) (x y : Nat)
    (hx : x + src.width ≤ dst.width) (hy : y + src.height ≤ dst.height)
    (hlen : dst.data.length = dst.width * dst.height)
    (px py : Nat) (hpx : px < dst.width) :
    (writeTile dst src x y).getPixel px py =
      if x ≤ px ∧ px < x + src.width ∧ y ≤ py ∧ py < y + src.height
      then src.getPixel (px - x) (py - y)
      else dst.getPixel px py :=
  rowsFold_getPixel src x y src.height dst hx hy hlen px py hpx

theorem Img.eq_of (a b : Img) (h1 : a.width = b.width) (h2 : a.height = b.height)
    (h3 : a.data = b.data) : a = b := by
  cases a
  cases b
  simp_all

/-! ## Crop lemmas -/

theorem grid_length (f : Nat → Nat → Rgba) (ww : Nat) (hh : Nat) :
    ((List.range hh).flatMap fun k => (List.range ww).map fun i => f i k).length = hh * ww := by
  induction hh with
  | zero => simp
  | succ n ih =>
    rw [List.range_succ, List.flatMap_append, List.length_append, ih]
    simp [Nat.succ_mul]

theorem grid_getD (f : Nat → Nat → Rgba) (ww : Nat) :
    ∀ (hh i k : Nat), i < ww → k < hh →
      ((List.range hh).flatMap fun kk => (List.range ww).map fun ii => f ii kk).getD
          (k * ww + i) rgbaZero
        = f i k := by
  intro hh
  induction hh with
  | zero => intro i k _ hk; exact absurd hk (Nat.not_lt_zero k)
  | succ n ih =>
    intro i k hi hk
    rw [List.range_succ, List.flatMap_append]
    by_cases hkn : k < n
    · have hlt : k * ww + i
          < ((List.range n).flatMap fun kk => (List.range ww).map fun ii => f ii kk).length := by
        rw [grid_length]
        exact index_lt hkn hi
      rw [List.getD_eq_getElem?_getD, List.getElem?_append, if_pos hlt,
        ← List.getD_eq_getElem?_getD]
      exact ih i k hi hkn
    · have hkn' : k = n := by omega
      subst hkn'
      have hlen1 :
          ((List.range k).flatMap fun kk => (List.range ww).map fun ii => f ii kk).length
            = k * ww := grid_length f ww k
      rw [List.getD_eq_getElem?_getD, List.getElem?_append_right (by rw [hlen1]; omega), hlen1]
      have hsub : k * ww + i - k * ww = i := by omega
      rw [hsub]
      simp [List.getElem?_map, List.getElem?_range hi]

theorem crop_width (img : Img) (x y w h : Nat) :
    (crop_imm img x y w h).width = min w (img.width - min x img.width) := rfl

theorem crop_height (img : Img) (x y w h : Nat) :
    (crop_imm img x y w h).height = min h (img.height - min y img.height) := rfl

theorem crop_length (img : Img) (x y w h : Nat) :
    (crop_imm img x y w h).data.length
      = (crop_imm img x y w h).height * (crop_imm img x y w h).width :=
  grid_length _ _ _

theorem crop_getPixel (img : Img) (x y w h i k : Nat)
    (hi : i < (crop_imm img x y w h).width) (hk : k < (crop_imm img x y w h).height) :
    (crop_imm img x y w h).getPixel i k
      = img.getPixel (min x img.width + i) (min y img.height + k) := by
  unfold Img.getPixel
  exact grid_getD _ _ _ i k hi hk

theorem crop_width_le (img : Img) (x y w h : Nat) :
    (crop_imm img x y w h).width ≤ w := by
  rw [crop_width]
  exact Nat.min_le_left _ _

theorem crop_height_le (img : Img) (x y w h : Nat) :
    (crop_imm img x y w h).height ≤ h := by
  rw [crop_height]
  exact Nat.min_le_left _ _

/-! ## Step and loop lemmas -/

theorem descrambleStep_eq (img orig : Img) (sx sy w h dx dy : Nat)
    (h1 : (crop_imm img sx sy w h).width + dx < U32L)
    (h2 : (crop_imm img sx sy w h).height + dy < U32L) :
    descrambleStep img orig (sx, sy, w, h, dx, dy) =
      some (if orig.width < (crop_imm img sx sy w h).width + dx
              ∨ orig.height < (crop_imm img sx sy w h).height + dy
            then orig
            else writeTile orig (crop_imm img sx sy w h) dx dy) := by
  have hbody : descrambleStep img orig (sx, sy, w, h, dx, dy)
      = (match copy_from orig (crop_imm img sx sy w h) dx dy with
         | none => none
         | some (Except.error _) => some orig
         | some (Except.ok o) => some o) := rfl
  rw [hbody]
  unfold copy_from
  rw [if_neg (Nat.not_le.mpr h1)]
  by_cases hw : orig.width < (crop_imm img sx sy w h).width + dx
  · rw [if_pos hw, if_pos (Or.inl hw)]
  · rw [if_neg hw, if_neg (Nat.not_le.mpr h2)]
    by_cases hh : orig.height < (crop_imm img sx sy w h).height + dy
    · rw [if_pos hh, if_pos (Or.inr hh)]
    · rw [if_neg hh, if_neg (by tauto)]

theorem descrambleLoop_spec (img : Img) :
    ∀ (cs : List CoordsTuple) (buf : Img),
      buf.data.length = buf.width * buf.height →
      (∀ c ∈ cs, c.2.2.1 + c.2.2.2.2.1 < U32L ∧ c.2.2.2.1 + c.2.2.2.2.2 < U32L) →
      ∃ o, descrambleLoop img buf cs = some o ∧
        o.width = buf.width ∧ o.height = buf.height ∧ o.data.length = buf.data.length ∧
        ∀ px py, px < buf.width →
          (∀ c ∈ cs, ¬ (c.2.2.2.2.1 ≤ px ∧ px < c.2.2.2.2.1 + c.2.2.1 ∧
                        c.2.2.2.2.2 ≤ py ∧ py < c.2.2.2.2.2 + c.2.2.2.1)) →
          o.getPixel px py = buf.getPixel px py := by
  intro cs
  induction cs with
  | nil =>
    intro buf hlen _
    exact ⟨buf, rfl, rfl, rfl, rfl, fun px py _ _ => rfl⟩
  | cons c rest ih =>
    intro buf hlen hov
    obtain ⟨sx, sy, w, h, dx, dy⟩ := c
    obtain ⟨ho1, ho2⟩ := hov _ (List.mem_cons_self _ _)
    have ho1' : w + dx < U32L := ho1
    have ho2' : h + dy < U32L := ho2
    have hov' : ∀ c ∈ rest, c.2.2.1 + c.2.2.2.2.1 < U32L ∧ c.2.2.2.1 + c.2.2.2.2.2 < U32L :=
      fun c hc => hov c (List.mem_cons_of_mem _ hc)
    have htw : (crop_imm img sx sy w h).width ≤ w := crop_width_le img sx sy w h
    have hth : (crop_imm img sx sy w h).height ≤ h := crop_height_le img sx sy w h
    have hstep := descrambleStep_eq img buf sx sy w h dx dy (by omega) (by omega)
    have hloop : descrambleLoop img buf ((sx, sy, w, h, dx, dy) :: rest)
        = match descrambleStep img buf (sx, sy, w, h, dx, dy) with
          | none => none
          | some o => descrambleLoop img o rest := rfl
    by_cases hoob : buf.width < (crop_imm img sx sy w h).width + dx
        ∨ buf.height < (crop_imm img sx sy w h).height + dy
    · rw [if_pos hoob] at hstep
      obtain ⟨o, hrec, hw, hh2, hl, hpix⟩ := ih buf hlen hov'
      refine ⟨o, ?_, hw, hh2, hl, ?_⟩
      · rw [hloop, hstep]
        exact hrec
      · intro px py hpx hunc
        exact hpix px py hpx fun c hc => hunc c (List.mem_cons_of_mem _ hc)
    · rw [if_neg hoob] at hstep
      push_neg at hoob
      obtain ⟨hbw, hbh⟩ := hoob
      have hB1 : (writeTile buf (crop_imm img sx sy w h) dx dy).width = buf.width :=
        writeTile_width _ _ _ _
      have hB2 : (writeTile buf (crop_imm img sx sy w h) dx dy).height = buf.height :=
        writeTile_height _ _ _ _
      have hB3 : (writeTile buf (crop_imm img sx sy w h) dx dy).data.length = buf.data.length :=
        writeTile_length _ _ _ _
      have hBlen : (writeTile buf (crop_imm img sx sy w h) dx dy).data.length
          = (writeTile buf (crop_imm img sx sy w h) dx dy).width
            * (writeTile buf (crop_imm img sx sy w h) dx dy).height := by
        rw [hB1, hB2, hB3, hlen]
      obtain ⟨o, hrec, hw, hh2, hl, hpix⟩ :=
        ih (writeTile buf (crop_imm img sx sy w h) dx dy) hBlen hov'
      refine ⟨o, ?_, by rw [hw, hB1], by rw [hh2, hB2], by rw [hl, hB3], ?_⟩
      · rw [hloop, hstep]
        exact hrec
      · intro px py hpx hunc
        have hunc1 : ¬ (dx ≤ px ∧ px < dx + w ∧ dy ≤ py ∧ py < dy + h) :=
          hunc _ (List.mem_cons_self _ _)
        have hstep2 : o.getPixel px py
            = (writeTile buf (crop_imm img sx sy w h) dx dy).getPixel px py :=
          hpix px py (by rw [hB1]; exact hpx)
            (fun c hc => hunc c (List.mem_cons_of_mem _ hc))
        rw [hstep2,
          writeTile_getPixel buf (crop_imm img sx sy w h) dx dy (by omega) (by omega) hlen
            px py hpx,
          if_neg (by omega)]

/-! ## Parser lemmas -/

theorem stripI_eq_none (l : List Char) (h : l.take 2 ≠ ['i', ':']) : stripI l = none := by
  match l with
  | [] => rfl
  | [a] => rfl
  | a :: b :: t =>
    have hab : ¬ (a = 'i' ∧ b = ':') := by
      rintro ⟨rfl, rfl⟩
      exact h rfl
    simp only [stripI]
    rw [if_neg hab]

theorem stripI_cons (r : List Char) : stripI ('i' :: ':' :: r) = some r := by
  simp [stripI]

theorem splitOnce_none (c : Char) (l : List Char) (h : c ∉ l) : splitOnce c l = none := by
  induction l with
  | nil => rfl
  | cons a t ih =>
    unfold splitOnce
    rw [if_neg (by rintro rfl; exact h (List.mem_cons_self _ _)),
      ih fun hm => h (List.mem_cons_of_mem _ hm)]

theorem splitOnce_append (c : Char) (l r : List Char) (hl : c ∉ l) :
    splitOnce c (l ++ c :: r) = some (l, r) := by
  induction l with
  | nil =>
    show splitOnce c (c :: r) = some ([], r)
    unfold splitOnce
    rw [if_pos rfl]
  | cons a t ih =>
    show splitOnce c (a :: (t ++ c :: r)) = some (a :: t, r)
    unfold splitOnce
    rw [if_neg (by rintro rfl; exact hl (List.mem_cons_self _ _)),
      ih fun hm => hl (List.mem_cons_of_mem _ hm)]

theorem splitOnce_mem (c : Char) :
    ∀ (l : List Char), c ∈ l → ∃ a b, splitOnce c l = some (a, b) := by
  intro l
  induction l with
  | nil => intro h; exact absurd h (List.not_mem_nil c)
  | cons x t ih =>
    intro h
    by_cases hx : x = c
    · exact ⟨[], t, by unfold splitOnce; rw [if_pos hx]⟩
    · have hmem : c ∈ t := by
        rcases List.mem_cons.mp h with h1 | h2
        · exact absurd h1.symm hx
        · exact h2
      obtain ⟨a, b, hab⟩ := ih hmem
      exact ⟨x :: a, b, by unfold splitOnce; rw [if_neg hx, hab]⟩

theorem splitOnce_some_eq (c : Char) :
    ∀ (l a b : List Char), splitOnce c l = some (a, b) → l = a ++ c :: b := by
  intro l
  induction l with
  | nil => intro a b h; exact absurd h (by simp [splitOnce])
  | cons x t ih =>
    intro a b h
    unfold splitOnce at h
    by_cases hx : x = c
    · rw [if_pos hx] at h
      have h3 := Option.some.inj h
      have ha : ([] : List Char) = a := congrArg Prod.fst h3
      have hb : t = b := congrArg Prod.snd h3
      subst ha
      subst hb
      simp [hx]
    · rw [if_neg hx] at h
      cases hs : splitOnce c t with
      | none => rw [hs] at h; exact absurd h (by simp)
      | some p =>
        obtain ⟨p1, p2⟩ := p
        rw [hs] at h
        have h3 := Option.some.inj h
        have ha : x :: p1 = a := congrArg Prod.fst h3
        have hb : p2 = b := congrArg Prod.snd h3
        subst ha
        subst hb
        simp [ih p1 p2 hs]

theorem splitAll_no_sep (c : Char) (l : List Char) (hl : c ∉ l) : splitAll c l = [l] := by
  induction l with
  | nil => rfl
  | cons a t ih =>
    unfold splitAll
    rw [if_neg (by rintro rfl; exact hl (List.mem_cons_self _ _)),
      ih fun hm => hl (List.mem_cons_of_mem _ hm)]

theorem splitAll_append (c : Char) (l r : List Char) (hl : c ∉ l) :
    splitAll c (l ++ c :: r) = l :: splitAll c r := by
  induction l with
  | nil =>
    show splitAll c (c :: r) = [] :: splitAll c r
    simp [splitAll]
  | cons a t ih =>
    show splitAll c (a :: (t ++ c :: r)) = (a :: t) :: splitAll c r
    simp only [splitAll]
    rw [if_neg (by rintro rfl; exact hl (List.mem_cons_self _ _)),
      ih fun hm => hl (List.mem_cons_of_mem _ hm)]

theorem not_mem_of_digits (x : Char) (l : List Char) (hd : ∀ ch ∈ l, ch.isDigit = true)
    (hx : ¬ x.isDigit = true) : x ∉ l :=
  fun hm => hx (hd x hm)

theorem digitsValFrom_cons (acc : Nat) (ch : Char) (t : List Char) :
    digitsValFrom acc (ch :: t) = digitsValFrom (acc * 10 + (ch.toNat - 48)) t := rfl

theorem digitsValFrom_ge (l : List Char) : ∀ acc, acc ≤ digitsValFrom acc l := by
  induction l with
  | nil => intro acc; exact Nat.le_refl acc
  | cons ch t ih =>
    intro acc
    rw [digitsValFrom_cons]
    calc acc ≤ acc * 10 + (ch.toNat - 48) := by omega
      _ ≤ digitsValFrom (acc * 10 + (ch.toNat - 48)) t := ih _

theorem parseDigits_eq (l : List Char) :
    ∀ acc, acc < U32L → (∀ ch ∈ l, ch.isDigit = true) →
      parseDigits l acc =
        if digitsValFrom acc l < U32L then .ok (digitsValFrom acc l)
        else .error "number too large to fit in target type" := by
  induction l with
  | nil =>
    intro acc hacc _
    have hv : digitsValFrom acc [] = acc := rfl
    rw [hv, if_pos hacc]
    rfl
  | cons ch t ih =>
    intro acc hacc hdig
    have hch : ch.isDigit = true := hdig ch (List.mem_cons_self _ _)
    rw [digitsValFrom_cons]
    unfold parseDigits
    rw [if_pos hch]
    by_cases h2 : U32L ≤ acc * 10 + (ch.toNat - 48)
    · rw [if_pos h2]
      have hge := digitsValFrom_ge t (acc * 10 + (ch.toNat - 48))
      rw [if_neg (by omega)]
    · rw [if_neg h2]
      exact ih _ (by omega) fun c hc => hdig c (List.mem_cons_of_mem _ hc)

theorem parseU32_digits (l : List Char) (hne : l ≠ []) (hdig : ∀ ch ∈ l, ch.isDigit = true) :
    parseU32 l =
      if digitsVal l < U32L then .ok (digitsVal l)
      else .error "number too large to fit in target type" := by
  cases l with
  | nil => exact absurd rfl hne
  | cons ch t =>
    have hch : ch.isDigit = true := hdig ch (List.mem_cons_self _ _)
    have hne2 : ¬ ch = '+' := by
      rintro rfl
      exact absurd hch (by decide)
    simp only [parseU32]
    rw [if_neg hne2]
    exact parseDigits_eq (ch :: t) 0 (by decide) hdig

theorem idxParse_two_zero (a b : List Char) : idxParse [a, b] 0 = match parseU32 a with
    | .ok n => .ok n
    | .error m => .err m := rfl

theorem idxParse_two_one (a b : List Char) : idxParse [a, b] 1 = match parseU32 b with
    | .ok n => .ok n
    | .error m => .err m := rfl

theorem parseCoords_cons (e : Json) (rest : List Json) :
    parseCoords (e :: rest) = (parseCoordsEntry e).bind fun c =>
      (parseCoords rest).bind fun cs => .ok (c :: cs) := rfl

theorem parseCoords_not_ok (l : List Json) :
    ∀ (e : Json), e ∈ l → (∀ c, parseCoordsEntry e ≠ .ok c) →
      ∀ res, parseCoords l ≠ .ok res := by
  induction l with
  | nil => intro e he; exact absurd he (List.not_mem_nil e)
  | cons a t ih =>
    intro e he hfail res hok
    rw [parseCoords_cons] at hok
    rcases List.mem_cons.mp he with rfl | hmem
    · cases hpe : parseCoordsEntry e with
      | ok c => exact hfail c hpe
      | err m => rw [hpe] at hok; simp [PResult.bind] at hok
      | crash => rw [hpe] at hok; simp [PResult.bind] at hok
    · cases hpa : parseCoordsEntry a with
      | ok c =>
        rw [hpa] at hok
        simp only [PResult.bind] at hok
        cases hpt : parseCoords t with
        | ok cs => exact ih e hmem hfail cs hpt
        | err m => rw [hpt] at hok; simp [PResult.bind] at hok
        | crash => rw [hpt] at hok; simp [PResult.bind] at hok
      | err m => rw [hpa] at hok; simp [PResult.bind] at hok
      | crash => rw [hpa] at hok; simp [PResult.bind] at hok

/-! ## Entry-level and manifest-level lemmas -/

theorem entry_err_no_marker (s : String) (h : s.data.take 2 ≠ ['i', ':']) :
    parseCoordsEntry (Json.str s) = .err "Failed to strip the \x27i:\x27 prefix" := by
  have h0 : parseCoordsEntry (Json.str s) = parseEntryStr s.data := rfl
  rw [h0]
  unfold parseEntryStr
  rw [stripI_eq_none s.data h]
  rfl

theorem entry_err_no_gt (s : String) (r : List Char) (hdata : s.data = 'i' :: ':' :: r)
    (hgt : '>' ∉ r) :
    parseCoordsEntry (Json.str s) = .err "Failed to split the src and dst parts" := by
  have h0 : parseCoordsEntry (Json.str s) = parseEntryStr s.data := rfl
  rw [h0, hdata]
  unfold parseEntryStr
  rw [stripI_cons]
  show parseEntryBody r = _
  unfold parseEntryBody
  rw [splitOnce_none '>' r hgt]
  rfl

theorem entry_err_no_plus (s : String) (r : List Char) (hdata : s.data = 'i' :: ':' :: r)
    (hgt : '>' ∈ r) (hplus : '+' ∉ r) :
    parseCoordsEntry (Json.str s) = .err "Failed to split the src and size parts" := by
  have h0 : parseCoordsEntry (Json.str s) = parseEntryStr s.data := rfl
  rw [h0, hdata]
  unfold parseEntryStr
  rw [stripI_cons]
  show parseEntryBody r = _
  unfold parseEntryBody
  obtain ⟨a, b, hab⟩ := splitOnce_mem '>' r hgt
  rw [hab]
  show parseEntryAfterPlus (splitOnce '+' a) b = _
  have hra : r = a ++ '>' :: b := splitOnce_some_eq '>' r a b hab
  have hpa : '+' ∉ a := fun hm => hplus (by rw [hra]; exact List.mem_append_left _ hm)
  rw [splitOnce_none '+' a hpa]
  rfl

theorem entry_mkEntry (a b c d e f : List Char)
    (ha : allDigits a) (hb : allDigits b) (hc : allDigits c) (hd2 : allDigits d)
    (he : allDigits e) (hf : allDigits f) :
    parseCoordsEntry (Json.str (mkEntry a b c d e f)) = parseEntryNums [a, b] [c, d] [e, f] := by
  have h0 : parseCoordsEntry (Json.str (mkEntry a b c d e f))
      = parseEntryStr ('i' :: ':' ::
          (a ++ ',' :: (b ++ '+' :: (c ++ ',' :: (d ++ '>' :: (e ++ ',' :: f)))))) := rfl
  rw [h0]
  unfold parseEntryStr
  rw [stripI_cons]
  show parseEntryBody (a ++ ',' :: (b ++ '+' :: (c ++ ',' :: (d ++ '>' :: (e ++ ',' :: f))))) = _
  unfold parseEntryBody
  have hL : a ++ ',' :: (b ++ '+' :: (c ++ ',' :: (d ++ '>' :: (e ++ ',' :: f))))
      = (a ++ ',' :: (b ++ '+' :: (c ++ ',' :: d))) ++ '>' :: (e ++ ',' :: f) := by
    simp [List.append_assoc]
  have hgt1 : '>' ∉ a ++ ',' :: (b ++ '+' :: (c ++ ',' :: d)) := by
    intro hm
    rcases List.mem_append.mp hm with hm1 | hm2
    · exact not_mem_of_digits _ _ ha.2 (by decide) hm1
    rcases List.mem_cons.mp hm2 with h1 | hm3
    · exact absurd h1 (by decide)
    rcases List.mem_append.mp hm3 with hm4 | hm5
    · exact not_mem_of_digits _ _ hb.2 (by decide) hm4
    rcases List.mem_cons.mp hm5 with h1 | hm6
    · exact absurd h1 (by decide)
    rcases List.mem_append.mp hm6 with hm7 | hm8
    · exact not_mem_of_digits _ _ hc.2 (by decide) hm7
    rcases List.mem_cons.mp hm8 with h1 | hm9
    · exact absurd h1 (by decide)
    exact not_mem_of_digits _ _ hd2.2 (by decide) hm9
  rw [hL, splitOnce_append '>' _ _ hgt1]
  show parseEntryAfterPlus (splitOnce '+' (a ++ ',' :: (b ++ '+' :: (c ++ ',' :: d))))
      (e ++ ',' :: f) = _
  have hL1 : a ++ ',' :: (b ++ '+' :: (c ++ ',' :: d))
      = (a ++ ',' :: b) ++ '+' :: (c ++ ',' :: d) := by
    simp [List.append_assoc]
  have hplus1 : '+' ∉ a ++ ',' :: b := by
    intro hm
    rcases List.mem_append.mp hm with hm1 | hm2
    · exact not_mem_of_digits _ _ ha.2 (by decide) hm1
    rcases List.mem_cons.mp hm2 with h1 | hm3
    · exact absurd h1 (by decide)
    exact not_mem_of_digits _ _ hb.2 (by decide) hm3
  rw [hL1, splitOnce_append '+' _ _ hplus1]
  show parseEntryNums (splitAll ',' (a ++ ',' :: b)) (splitAll ',' (c ++ ',' :: d))
      (splitAll ',' (e ++ ',' :: f)) = _
  rw [splitAll_append ',' a b (not_mem_of_digits _ _ ha.2 (by decide)),
    splitAll_no_sep ',' b (not_mem_of_digits _ _ hb.2 (by decide)),
    splitAll_append ',' c d (not_mem_of_digits _ _ hc.2 (by decide)),
    splitAll_no_sep ',' d (not_mem_of_digits _ _ hd2.2 (by decide)),
    splitAll_append ',' e f (not_mem_of_digits _ _ he.2 (by decide)),
    splitAll_no_sep ',' f (not_mem_of_digits _ _ hf.2 (by decide))]

theorem idxParse_ok (parts : List (List Char)) (i : Nat) (s : List Char) (n : Nat)
    (hs : parts.get? i = some s) (hp : parseU32 s = .ok n) : idxParse parts i = .ok n := by
  unfold idxParse
  rw [hs]
  simp only [idxParseAux]
  rw [hp]
  rfl

theorem idxParse_err (parts : List (List Char)) (i : Nat) (s : List Char) (m : String)
    (hs : parts.get? i = some s) (hp : parseU32 s = .error m) : idxParse parts i = .err m := by
  unfold idxParse
  rw [hs]
  simp only [idxParseAux]
  rw [hp]
  rfl

theorem parse_json_mkManifest (wv hv : Nat) (l : List Json)
    (hw : wv < 18446744073709551616) (hh : hv < 18446744073709551616) :
    parse_json (mkManifest wv hv l) =
      (parseCoords l).bind fun coords => .ok ⟨wv % U32L, hv % U32L, coords⟩ := by
  show (ofOption (Json.asU64 (Json.num wv)) "Failed to parse width from json").bind (fun w64 =>
      (ofOption (Json.asU64 (Json.num hv)) "Failed to parse height from json").bind (fun h64 =>
      (ofOption (Json.asArray (Json.arr l)) "Failed to parse coords from json").bind (fun cv =>
      (parseCoords cv).bind (fun coords =>
      PResult.ok (Views.mk (w64 % U32L) (h64 % U32L) coords)))))
    = (parseCoords l).bind fun coords => PResult.ok (Views.mk (wv % U32L) (hv % U32L) coords)
  have h1 : Json.asU64 (Json.num wv) = some wv := by
    simp only [Json.asU64]
    rw [if_pos hw]
  have h2 : Json.asU64 (Json.num hv) = some hv := by
    simp only [Json.asU64]
    rw [if_pos hh]
  rw [h1, h2]
  rfl

theorem parse_json_entry_err (wv hv : Nat) (eJ : Json) (m : String)
    (hw : wv < 18446744073709551616) (hh : hv < 18446744073709551616)
    (hent : parseCoordsEntry eJ = .err m) :
    parse_json (mkManifest wv hv [eJ]) = .err m := by
  rw [parse_json_mkManifest wv hv [eJ] hw hh, parseCoords_cons, hent]
  simp [PResult.bind]

theorem entry_err_of_oversized (a b c d e f : List Char)
    (ha : allDigits a) (hb : allDigits b) (hc : allDigits c) (hd2 : allDigits d)
    (he : allDigits e) (hf : allDigits f)
    (hover : U32L ≤ digitsVal a ∨ U32L ≤ digitsVal b ∨ U32L ≤ digitsVal c ∨
             U32L ≤ digitsVal d ∨ U32L ≤ digitsVal e ∨ U32L ≤ digitsVal f) :
    parseCoordsEntry (Json.str (mkEntry a b c d e f))
      = .err "number too large to fit in target type" := by
  rw [entry_mkEntry a b c d e f ha hb hc hd2 he hf]
  unfold parseEntryNums
  by_cases hva : digitsVal a < U32L
  case neg =>
    rw [idxParse_err [a, b] 0 a _ rfl (by rw [parseU32_digits a ha.1 ha.2, if_neg hva])]
    rfl
  case pos =>
  rw [idxParse_ok [a, b] 0 a _ rfl (by rw [parseU32_digits a ha.1 ha.2, if_pos hva])]
  simp only [PResult.bind]
  by_cases hvb : digitsVal b < U32L
  case neg =>
    rw [idxParse_err [a, b] 1 b _ rfl (by rw [parseU32_digits b hb.1 hb.2, if_neg hvb])]
  case pos =>
  rw [idxParse_ok [a, b] 1 b _ rfl (by rw [parseU32_digits b hb.1 hb.2, if_pos hvb])]
  simp only [PResult.bind]
  by_cases hvc : digitsVal c < U32L
  case neg =>
    rw [idxParse_err [c, d] 0 c _ rfl (by rw [parseU32_digits c hc.1 hc.2, if_neg hvc])]
  case pos =>
  rw [idxParse_ok [c, d] 0 c _ rfl (by rw [parseU32_digits c hc.1 hc.2, if_pos hvc])]
  simp only [PResult.bind]
  by_cases hvd : digitsVal d < U32L
  case neg =>
    rw [idxParse_err [c, d] 1 d _ rfl (by rw [parseU32_digits d hd2.1 hd2.2, if_neg hvd])]
  case pos =>
  rw [idxParse_ok [c, d] 1 d _ rfl (by rw [parseU32_digits d hd2.1 hd2.2, if_pos hvd])]
  simp only [PResult.bind]
  by_cases hve : digitsVal e < U32L
  case neg =>
    rw [idxParse_err [e, f] 0 e _ rfl (by rw [parseU32_digits e he.1 he.2, if_neg hve])]
  case pos =>
  rw [idxParse_ok [e, f] 0 e _ rfl (by rw [parseU32_digits e he.1 he.2, if_pos hve])]
  simp only [PResult.bind]
  by_cases hvf : digitsVal f < U32L
  case neg =>
    rw [idxParse_err [e, f] 1 f _ rfl (by rw [parseU32_digits f hf.1 hf.2, if_neg hvf])]
  case pos =>
  exact absurd hover (by omega)

theorem descrambleLoop_nil (img buf : Img) : descrambleLoop img buf [] = some buf := rfl

theorem descrambleLoop_step_cons (img buf : Img) (c : CoordsTuple) (rest : List CoordsTuple)
    (o : Img) (hstep : descrambleStep img buf c = some o) :
    descrambleLoop img buf (c :: rest) = descrambleLoop img o rest := by
  have h : descrambleLoop img buf (c :: rest)
      = match descrambleStep img buf c with
        | none => none
        | some o2 => descrambleLoop img o2 rest := rfl
  rw [h, hstep]

theorem descrambleStep_write (img orig : Img) (sx sy w h dx dy : Nat)
    (h1 : (crop_imm img sx sy w h).width + dx ≤ orig.width)
    (h2 : (crop_imm img sx sy w h).height + dy ≤ orig.height)
    (hw : orig.width < U32L) (hh : orig.height < U32L) :
    descrambleStep img orig (sx, sy, w, h, dx, dy)
      = some (writeTile orig (crop_imm img sx sy w h) dx dy) := by
  have hst := descrambleStep_eq img orig sx sy w h dx dy (by omega) (by omega)
  rw [hst, if_neg (by omega)]

/-! ## Claim theorems

Each claim of the specification is settled by exactly one theorem below
(plus, for refuted claims, a counterexample theorem, and for theorems with
hypotheses, a closed witness). -/

/-- C1 counterexample: the compositor does NOT fail when a destination
rectangle leaves the canvas.  The single placement of `viewsOobDest` writes
the whole 2×2 source at destination x = 1 on a 2×2 canvas; `descramble`
succeeds and returns the untouched blank canvas — the placement was
silently skipped because the `Result` of `copy_from` is discarded. -/
theorem c1_oob_dest_counterexample :
    descramble imgA viewsOobDest = some (Img.blank 2 2) := by decide

/-- C1 (corrected): when the bounds check of `copy_from` fails for a
placement whose checked additions do not overflow `u32`, `descramble` does
not fail: the step returns the buffer unchanged (the whole placement is
skipped, nothing is clipped or wrapped) and compositing continues with the
remaining placements. -/
theorem c1_oob_dest_skipped (img orig : Img) (sx sy w h dx dy : Nat)
    (h1 : (crop_imm img sx sy w h).width + dx < U32L)
    (hoob : orig.width < (crop_imm img sx sy w h).width + dx
      ∨ ((crop_imm img sx sy w h).height + dy < U32L
          ∧ orig.height < (crop_imm img sx sy w h).height + dy)) :
    descrambleStep img orig (sx, sy, w, h, dx, dy) = some orig ∧
    ∀ rest, descrambleLoop img orig ((sx, sy, w, h, dx, dy) :: rest)
      = descrambleLoop img orig rest := by
  have hstep : descrambleStep img orig (sx, sy, w, h, dx, dy) = some orig := by
    have hbody : descrambleStep img orig (sx, sy, w, h, dx, dy)
        = (match copy_from orig (crop_imm img sx sy w h) dx dy with
           | none => none
           | some (Except.error _) => some orig
           | some (Except.ok o) => some o) := rfl
    rw [hbody]
    unfold copy_from
    rw [if_neg (Nat.not_le.mpr h1)]
    by_cases hwx : orig.width < (crop_imm img sx sy w h).width + dx
    · rw [if_pos hwx]
    · rcases hoob with hx | ⟨h2, hy⟩
      · exact absurd hx hwx
      · rw [if_neg hwx, if_neg (Nat.not_le.mpr h2), if_pos hy]
  exact ⟨hstep, fun rest => descrambleLoop_step_cons img orig _ rest orig hstep⟩

/-- C1 witness: the skip theorem applied at a concrete out-of-bounds
placement. -/
theorem c1_oob_dest_skipped_witness :
    descrambleStep imgA (Img.blank 2 2) (0, 0, 2, 2, 1, 0) = some (Img.blank 2 2) ∧
    descrambleLoop imgA (Img.blank 2 2) [(0, 0, 2, 2, 1, 0)]
      = descrambleLoop imgA (Img.blank 2 2) [] := by
  have h := c1_oob_dest_skipped imgA (Img.blank 2 2) 0 0 2 2 1 0 (by decide)
    (Or.inl (by decide))
  exact ⟨h.1, h.2 []⟩

/-- C2 counterexample: the compositor does NOT fail when a source rectangle
leaves the source image.  The placement of `viewsOobSrc` asks for the 4×2
rectangle at source x = 2 of the 4×2 image `imgB`; `descramble` succeeds,
having clamped the rectangle to the remaining 2×2 region (`crop_imm`), and
returns `imgBClamped`. -/
theorem c2_oob_src_counterexample :
    descramble imgB viewsOobSrc = some imgBClamped := by decide

/-- C2 (corrected): the source rectangle is clamped, never rejected:
`crop_imm` clamps the corner to the image and the extent to what remains,
and the compositor step always succeeds (skip or write) whenever the
checked `u32` additions do not overflow. -/
theorem c2_oob_src_clamped (img orig : Img) (sx sy w h dx dy : Nat)
    (h1 : (crop_imm img sx sy w h).width + dx < U32L)
    (h2 : (crop_imm img sx sy w h).height + dy < U32L) :
    (crop_imm img sx sy w h).width = min w (img.width - min sx img.width) ∧
    (crop_imm img sx sy w h).height = min h (img.height - min sy img.height) ∧
    descrambleStep img orig (sx, sy, w, h, dx, dy) =
      some (if orig.width < (crop_imm img sx sy w h).width + dx
              ∨ orig.height < (crop_imm img sx sy w h).height + dy
            then orig
            else writeTile orig (crop_imm img sx sy w h) dx dy) :=
  ⟨crop_width img sx sy w h, crop_height img sx sy w h,
    descrambleStep_eq img orig sx sy w h dx dy h1 h2⟩

/-- C2 witness: the clamping theorem applied at the concrete inputs of the
counterexample. -/
theorem c2_oob_src_clamped_witness :
    (crop_imm imgB 2 0 4 2).width = 2 ∧ (crop_imm imgB 2 0 4 2).height = 2 ∧
    descrambleStep imgB (Img.blank 4 2) (2, 0, 4, 2, 0, 0)
      = some (writeTile (Img.blank 4 2) (crop_imm imgB 2 0 4 2) 0 0) := by
  have h := c2_oob_src_clamped imgB (Img.blank 4 2) 2 0 4 2 0 0 (by decide) (by decide)
  refine ⟨by decide, by decide, ?_⟩
  rw [h.2.2, if_neg (by decide)]

/-- C3: the claim is right and the code is wrong.  On a coords entry whose
source-position, size or destination part has no comma (so the split yields
a single field), the unchecked `Vec` indexing `src_pos[1]` (resp.
`size[1]`, `dst_pos[1]`) panics instead of returning the format error value
the rest of the function returns through `ok_or`/`?`. -/
theorem c3_missing_component_panics :
    parse_json (mkManifest 4 2 [Json.str "i:5+2,2>0,0"]) = PResult.crash ∧
    parseCoordsEntry (Json.str "i:0,0+2>0,0") = PResult.crash ∧
    parseCoordsEntry (Json.str "i:0,0+2,2>0") = PResult.crash := by decide

/-- C4: the concrete two-tile manifest parses to the expected descriptor,
and compositing it against ANY 4×2 source image reproduces that image
pixel for pixel. -/
theorem c4_concrete_roundtrip :
    parse_json manifestC4 = .ok viewsC4 ∧
    ∀ (p0 p1 p2 p3 p4 p5 p6 p7 : Rgba),
      descramble ⟨4, 2, [p0, p1, p2, p3, p4, p5, p6, p7]⟩ viewsC4
        = some ⟨4, 2, [p0, p1, p2, p3, p4, p5, p6, p7]⟩ :=
  ⟨by decide, fun _ _ _ _ _ _ _ _ => rfl⟩

/-- C5: a single placement with source `(0,0)`, size `W×H` and destination
`(0,0)` on a `W×H` canvas reproduces any well-formed `W×H` source image
pixel for pixel. -/
theorem c5_full_cover_identity (img : Img)
    (hlen : img.data.length = img.width * img.height)
    (hw : img.width < U32L) (hh : img.height < U32L) :
    descramble img ⟨img.width, img.height, [(0, 0, img.width, img.height, 0, 0)]⟩
      = some img := by
  have hcw : (crop_imm img 0 0 img.width img.height).width = img.width := by
    rw [crop_width]
    simp
  have hch : (crop_imm img 0 0 img.width img.height).height = img.height := by
    rw [crop_height]
    simp
  have hstep := descrambleStep_write img (Img.blank img.width img.height) 0 0
    img.width img.height 0 0
    (by show (crop_imm img 0 0 img.width img.height).width + 0 ≤ img.width
        rw [hcw]
        omega)
    (by show (crop_imm img 0 0 img.width img.height).height + 0 ≤ img.height
        rw [hch]
        omega)
    hw hh
  show descrambleLoop img (Img.blank img.width img.height)
      [(0, 0, img.width, img.height, 0, 0)] = some img
  rw [descrambleLoop_step_cons img (Img.blank img.width img.height)
      (0, 0, img.width, img.height, 0, 0) [] _ hstep, descrambleLoop_nil]
  congr 1
  apply Img.eq_of
  · exact (writeTile_width _ _ _ _).trans rfl
  · exact (writeTile_height _ _ _ _).trans rfl
  apply list_ext_getD
  · rw [writeTile_length]
    show (List.replicate (img.width * img.height) rgbaZero).length = img.data.length
    rw [List.length_replicate, hlen]
  intro n hn
  have hlen2 : n < img.width * img.height := by
    rw [writeTile_length] at hn
    have hb : (Img.blank img.width img.height).data.length = img.width * img.height :=
      List.length_replicate _ _
    rw [hb] at hn
    exact hn
  have hWpos : 0 < img.width := by
    rcases Nat.eq_zero_or_pos img.width with h0 | h0
    · rw [h0, Nat.zero_mul] at hlen2
      exact absurd hlen2 (Nat.not_lt_zero n)
    · exact h0
  have hpx : n % img.width < img.width := Nat.mod_lt n hWpos
  have hpy : n / img.width < img.height := Nat.div_lt_of_lt_mul hlen2
  have hdecomp : (n / img.width) * img.width + n % img.width = n := by
    rw [Nat.mul_comm]
    exact Nat.div_add_mod n img.width
  have hgl : (writeTile (Img.blank img.width img.height)
        (crop_imm img 0 0 img.width img.height) 0 0).data.getD n rgbaZero
      = (writeTile (Img.blank img.width img.height)
        (crop_imm img 0 0 img.width img.height) 0 0).getPixel
          (n % img.width) (n / img.width) := by
    unfold Img.getPixel
    rw [writeTile_width, show (Img.blank img.width img.height).width = img.width from rfl,
      hdecomp]
  have hgr : img.data.getD n rgbaZero = img.getPixel (n % img.width) (n / img.width) := by
    unfold Img.getPixel
    rw [hdecomp]
  rw [hgl, hgr]
  rw [writeTile_getPixel (Img.blank img.width img.height)
      (crop_imm img 0 0 img.width img.height) 0 0
      (by show 0 + (crop_imm img 0 0 img.width img.height).width ≤ img.width
          rw [hcw]
          omega)
      (by show 0 + (crop_imm img 0 0 img.width img.height).height ≤ img.height
          rw [hch]
          omega)
      (List.length_replicate _ _)
      (n % img.width) (n / img.width)
      hpx]
  rw [if_pos ⟨Nat.zero_le _, by rw [hcw]; omega, Nat.zero_le _, by rw [hch]; omega⟩]
  rw [Nat.sub_zero, Nat.sub_zero,
    crop_getPixel img 0 0 img.width img.height (n % img.width) (n / img.width)
      (by rw [hcw]; exact hpx) (by rw [hch]; exact hpy)]
  simp

/-- C5 witness: the identity theorem applied at the concrete 4×2 image. -/
theorem c5_full_cover_identity_witness :
    descramble imgB ⟨4, 2, [(0, 0, 4, 2, 0, 0)]⟩ = some imgB :=
  c5_full_cover_identity imgB (by decide) (by decide) (by decide)

/-- C6: last write wins.  For a descriptor of two in-bounds placements with
the same destination rectangle, compositing succeeds, and every pixel of
that rectangle in the output equals the corresponding pixel of the LATER
source rectangle (and differs from the earlier one wherever the two
sources differ). -/
theorem c6_last_write_wins (img : Img) (cw ch sx1 sy1 sx2 sy2 w h dx dy px py : Nat)
    (hlen : img.data.length = img.width * img.height)
    (hs1x : sx1 + w ≤ img.width) (hs1y : sy1 + h ≤ img.height)
    (hs2x : sx2 + w ≤ img.width) (hs2y : sy2 + h ≤ img.height)
    (hdx : dx + w ≤ cw) (hdy : dy + h ≤ ch)
    (hcw : cw < U32L) (hch : ch < U32L)
    (hpx1 : dx ≤ px) (hpx2 : px < dx + w) (hpy1 : dy ≤ py) (hpy2 : py < dy + h) :
    (descramble img ⟨cw, ch, [(sx1, sy1, w, h, dx, dy), (sx2, sy2, w, h, dx, dy)]⟩).isSome
      = true ∧
    ∀ o, descramble img ⟨cw, ch, [(sx1, sy1, w, h, dx, dy), (sx2, sy2, w, h, dx, dy)]⟩
        = some o →
      o.getPixel px py = img.getPixel (sx2 + (px - dx)) (sy2 + (py - dy)) ∧
      (img.getPixel (sx1 + (px - dx)) (sy1 + (py - dy))
          ≠ img.getPixel (sx2 + (px - dx)) (sy2 + (py - dy)) →
        o.getPixel px py ≠ img.getPixel (sx1 + (px - dx)) (sy1 + (py - dy))) := by
  have ht1w : (crop_imm img sx1 sy1 w h).width = w := by
    rw [crop_width, Nat.min_eq_left (show sx1 ≤ img.width by omega)]
    exact Nat.min_eq_left (by omega)
  have ht1h : (crop_imm img sx1 sy1 w h).height = h := by
    rw [crop_height, Nat.min_eq_left (show sy1 ≤ img.height by omega)]
    exact Nat.min_eq_left (by omega)
  have ht2w : (crop_imm img sx2 sy2 w h).width = w := by
    rw [crop_width, Nat.min_eq_left (show sx2 ≤ img.width by omega)]
    exact Nat.min_eq_left (by omega)
  have ht2h : (crop_imm img sx2 sy2 w h).height = h := by
    rw [crop_height, Nat.min_eq_left (show sy2 ≤ img.height by omega)]
    exact Nat.min_eq_left (by omega)
  have hstep1 := descrambleStep_write img (Img.blank cw ch) sx1 sy1 w h dx dy
    (by show (crop_imm img sx1 sy1 w h).width + dx ≤ cw
        rw [ht1w]
        omega)
    (by show (crop_imm img sx1 sy1 w h).height + dy ≤ ch
        rw [ht1h]
        omega)
    hcw hch
  have hB1w : (writeTile (Img.blank cw ch) (crop_imm img sx1 sy1 w h) dx dy).width = cw :=
    (writeTile_width _ _ _ _).trans rfl
  have hB1h : (writeTile (Img.blank cw ch) (crop_imm img sx1 sy1 w h) dx dy).height = ch :=
    (writeTile_height _ _ _ _).trans rfl
  have hB1len : (writeTile (Img.blank cw ch) (crop_imm img sx1 sy1 w h) dx dy).data.length
      = (writeTile (Img.blank cw ch) (crop_imm img sx1 sy1 w h) dx dy).width
        * (writeTile (Img.blank cw ch) (crop_imm img sx1 sy1 w h) dx dy).height := by
    rw [writeTile_length, writeTile_width, writeTile_height]
    exact List.length_replicate _ _
  have hstep2 := descrambleStep_write img
    (writeTile (Img.blank cw ch) (crop_imm img sx1 sy1 w h) dx dy) sx2 sy2 w h dx dy
    (by rw [ht2w, hB1w]; omega)
    (by rw [ht2h, hB1h]; omega)
    (by rw [hB1w]; exact hcw)
    (by rw [hB1h]; exact hch)
  have hD : descramble img ⟨cw, ch, [(sx1, sy1, w, h, dx, dy), (sx2, sy2, w, h, dx, dy)]⟩
      = some (writeTile (writeTile (Img.blank cw ch) (crop_imm img sx1 sy1 w h) dx dy)
               (crop_imm img sx2 sy2 w h) dx dy) := by
    show descrambleLoop img (Img.blank cw ch)
        [(sx1, sy1, w, h, dx, dy), (sx2, sy2, w, h, dx, dy)] = _
    rw [descrambleLoop_step_cons img _ _ _ _ hstep1,
      descrambleLoop_step_cons img _ _ _ _ hstep2, descrambleLoop_nil]
  refine ⟨by rw [hD]; rfl, ?_⟩
  intro o ho
  rw [hD] at ho
  have ho2 : writeTile (writeTile (Img.blank cw ch) (crop_imm img sx1 sy1 w h) dx dy)
      (crop_imm img sx2 sy2 w h) dx dy = o := Option.some.inj ho
  subst ho2
  have hpix : (writeTile (writeTile (Img.blank cw ch) (crop_imm img sx1 sy1 w h) dx dy)
        (crop_imm img sx2 sy2 w h) dx dy).getPixel px py
      = img.getPixel (sx2 + (px - dx)) (sy2 + (py - dy)) := by
    rw [writeTile_getPixel _ _ dx dy (by rw [ht2w, hB1w]; omega) (by rw [ht2h, hB1h]; omega)
        hB1len px py (by rw [hB1w]; omega)]
    rw [if_pos ⟨hpx1, by rw [ht2w]; omega, hpy1, by rw [ht2h]; omega⟩]
    rw [crop_getPixel img sx2 sy2 w h (px - dx) (py - dy)
        (by rw [ht2w]; omega) (by rw [ht2h]; omega),
      Nat.min_eq_left (show sx2 ≤ img.width by omega),
      Nat.min_eq_left (show sy2 ≤ img.height by omega)]
  exact ⟨hpix, fun hne heq => hne (heq.symm.trans hpix)⟩

/-- C6 witness: two 1×1 placements on a 1×1 canvas with the same
destination; the output holds the pixel of the later source position. -/
theorem c6_last_write_wins_witness :
    (descramble imgC ⟨1, 1, [(0, 0, 1, 1, 0, 0), (1, 0, 1, 1, 0, 0)]⟩).isSome = true ∧
    descramble imgC ⟨1, 1, [(0, 0, 1, 1, 0, 0), (1, 0, 1, 1, 0, 0)]⟩
      = some ⟨1, 1, [⟨2, 2, 2, 255⟩]⟩ := by
  have h := c6_last_write_wins imgC 1 1 0 0 1 0 1 1 0 0 0 0 (by decide) (by decide)
    (by decide) (by decide) (by decide) (by decide) (by decide) (by decide) (by decide)
    (by decide) (by decide) (by decide) (by decide)
  exact ⟨h.1, by decide⟩

/-- C7 counterexample: `descramble` does NOT always return a buffer.  With
destination x equal to `u32::MAX`, the checked addition
`other.width() + x` in `copy_from` overflows `u32` and the process aborts
(with wrapping arithmetic the subsequent `put_pixel` aborts out of bounds
instead); the embedding returns `none`. -/
theorem c7_overflow_counterexample : descramble imgC viewsOverflow = none := by decide

/-- C7 (corrected): whenever no placement makes a checked `u32` addition
overflow (for instance whenever `w + dst_x` and `h + dst_y` stay below
`2^32`), `descramble` returns a buffer of exactly `canvas_width ×
canvas_height` RGBA pixels, and every canvas pixel not covered by any
destination rectangle is the zeroed fully-transparent pixel. -/
theorem c7_canvas_dims_and_gaps (img : Img) (v : Views)
    (hov : ∀ c ∈ v.coords, c.2.2.1 + c.2.2.2.2.1 < U32L ∧ c.2.2.2.1 + c.2.2.2.2.2 < U32L) :
    ∃ o, descramble img v = some o ∧ o.width = v.width ∧ o.height = v.height ∧
      o.data.length = v.width * v.height ∧
      ∀ px py, px < v.width →
        (∀ c ∈ v.coords, ¬ (c.2.2.2.2.1 ≤ px ∧ px < c.2.2.2.2.1 + c.2.2.1 ∧
                            c.2.2.2.2.2 ≤ py ∧ py < c.2.2.2.2.2 + c.2.2.2.1)) →
        o.getPixel px py = rgbaZero := by
  obtain ⟨o, h1, h2, h3, h4, h5⟩ := descrambleLoop_spec img v.coords
    (Img.blank v.width v.height) (List.length_replicate _ _) hov
  refine ⟨o, h1, h2, h3, ?_, ?_⟩
  · rw [h4]
    exact List.length_replicate _ _
  · intro px py hpx hunc
    rw [h5 px py hpx hunc]
    exact getD_replicate_zero _ _

/-- C7 witness: the amended theorem applied at a concrete in-bounds
descriptor. -/
theorem c7_canvas_dims_and_gaps_witness :
    (descramble imgC viewsSmall).isSome = true := by
  obtain ⟨o, ho, _⟩ := c7_canvas_dims_and_gaps imgC viewsSmall (by decide)
  rw [ho]
  rfl

/-- C8: parse strictness.  A coords entry missing the `i:` prefix, missing
the `>` separator, or (having both) missing the `+` separator each yields
its own distinct format error naming the failure, the three messages are
pairwise distinct, and a failing entry is never silently dropped — the
whole coords parse refuses to return `ok`. -/
theorem c8_parse_strictness :
    (∀ s : String, s.data.take 2 ≠ ['i', ':'] →
      parseCoordsEntry (Json.str s) = .err "Failed to strip the \x27i:\x27 prefix") ∧
    (∀ (s : String) (r : List Char), s.data = 'i' :: ':' :: r → '>' ∉ r →
      parseCoordsEntry (Json.str s) = .err "Failed to split the src and dst parts") ∧
    (∀ (s : String) (r : List Char), s.data = 'i' :: ':' :: r → '>' ∈ r → '+' ∉ r →
      parseCoordsEntry (Json.str s) = .err "Failed to split the src and size parts") ∧
    (("Failed to strip the \x27i:\x27 prefix" : String)
        ≠ "Failed to split the src and dst parts" ∧
     ("Failed to strip the \x27i:\x27 prefix" : String)
        ≠ "Failed to split the src and size parts" ∧
     ("Failed to split the src and dst parts" : String)
        ≠ "Failed to split the src and size parts") ∧
    (∀ (l : List Json) (e : Json) (m : String), e ∈ l → parseCoordsEntry e = .err m →
      ∀ res, parseCoords l ≠ .ok res) :=
  ⟨entry_err_no_marker,
   entry_err_no_gt,
   entry_err_no_plus,
   ⟨by decide, by decide, by decide⟩,
   fun l e m he hm res =>
     parseCoords_not_ok l e he (fun c hc => by rw [hm] at hc; exact PResult.noConfusion hc) res⟩

/-- C8 witness: the three errors at concrete entries, and the refusal to
return ok for a list containing a bad entry. -/
theorem c8_parse_strictness_witness :
    parseCoordsEntry (Json.str "x") = .err "Failed to strip the \x27i:\x27 prefix" ∧
    parseCoordsEntry (Json.str "i:0,0") = .err "Failed to split the src and dst parts" ∧
    parseCoordsEntry (Json.str "i:0,0>2,2")
      = .err "Failed to split the src and size parts" ∧
    parseCoords [Json.str "x"] ≠ .ok [] := by
  have h := c8_parse_strictness
  refine ⟨h.1 "x" (by decide),
    h.2.1 "i:0,0" ['0', ',', '0'] rfl (by decide),
    h.2.2.1 "i:0,0>2,2" ['0', ',', '0', '>', '2', ',', '2'] rfl (by decide) (by decide),
    h.2.2.2.2 [Json.str "x"] (Json.str "x") _ (List.mem_cons_self _ _)
      (h.1 "x" (by decide)) []⟩

/-- C9: both components of the core are pure: their embeddings are total
functions of their inputs (the Rust bodies read no global state and do no
input or output), so identical inputs give identical outputs. -/
theorem c9_deterministic (j j2 : Json) (img img2 : Img) (v v2 : Views)
    (hj : j = j2) (hi : img = img2) (hv : v = v2) :
    parse_json j = parse_json j2 ∧ descramble img v = descramble img2 v2 := by
  subst hj
  subst hi
  subst hv
  exact ⟨rfl, rfl⟩

/-- C9 witness: determinism at the concrete manifest and image. -/
theorem c9_deterministic_witness :
    parse_json manifestC4 = parse_json manifestC4 ∧
    descramble imgB viewsC4 = descramble imgB viewsC4 :=
  c9_deterministic manifestC4 manifestC4 imgB imgB viewsC4 viewsC4 rfl rfl rfl

/-- C10: numeric asymmetry.  A top-level `width`/`height` up to
`u64::MAX` is accepted and truncated modulo `2^32` (`as u32`), while a
well-formed coords entry any of whose six numeric components has decimal
value above `u32::MAX` makes `parse_json` return the overflow parse
error. -/
theorem c10_numeric_asymmetry :
    (∀ (wv hv : Nat) (l : List Json) (cs : List CoordsTuple),
      wv < 18446744073709551616 → hv < 18446744073709551616 → parseCoords l = .ok cs →
      parse_json (mkManifest wv hv l) = .ok ⟨wv % U32L, hv % U32L, cs⟩) ∧
    (∀ (wv hv : Nat) (a b c d e f : List Char),
      wv < 18446744073709551616 → hv < 18446744073709551616 →
      allDigits a → allDigits b → allDigits c → allDigits d → allDigits e → allDigits f →
      (U32L ≤ digitsVal a ∨ U32L ≤ digitsVal b ∨ U32L ≤ digitsVal c ∨
       U32L ≤ digitsVal d ∨ U32L ≤ digitsVal e ∨ U32L ≤ digitsVal f) →
      parse_json (mkManifest wv hv [Json.str (mkEntry a b c d e f)])
        = .err "number too large to fit in target type") := by
  constructor
  · intro wv hv l cs hw hh hok
    rw [parse_json_mkManifest wv hv l hw hh, hok]
    rfl
  · intro wv hv a b c d e f hw hh ha hb hc hd2 he hf hover
    exact parse_json_entry_err wv hv _ _ hw hh
      (entry_err_of_oversized a b c d e f ha hb hc hd2 he hf hover)

/-- C10 witness: width 2^32+7 truncates to 7; a source-x component of
2^32 makes the parse fail. -/
theorem c10_numeric_asymmetry_witness :
    parse_json (mkManifest 4294967303 11 []) = .ok ⟨7, 11, []⟩ ∧
    parse_json (mkManifest 1 1
        [Json.str (mkEntry "4294967296".data "0".data "1".data "1".data "0".data "0".data)])
      = .err "number too large to fit in target type" := by
  have h := c10_numeric_asymmetry
  constructor
  · exact h.1 4294967303 11 [] [] (by decide) (by decide) rfl
  · exact h.2 1 1 _ _ _ _ _ _ (by decide) (by decide) (by decide) (by decide) (by decide)
      (by decide) (by decide) (by decide) (Or.inl (by decide))

end Kirapo
